import Mathlib

/-!
Shallow embedding of `pagespeed/controller/request_result_rpc_client.h`.

The header defines two cooperating classes:

* `RpcHolder` — owns the gRPC `ClientContext`, the reader/writer and the
  final status; its `Finish` issues the close handshake and
  `FinishSucceeded` classifies/logs the resulting status code.
* `RequestResultRpcClient` — the client state machine.  Every completion
  handler takes the per-instance mutex at entry, so each handler body is
  one atomic step of a labelled transition system.  The effects a handler
  performs (issuing transport operations, invoking the user callback,
  running subclass hooks, logging, detaching or destroying the holder) are
  recorded in an append-only trace; each entry carries a `Bool` saying
  whether the mutex was held at the moment the effect happened.

Asynchronous transport completions are modelled as events chosen by the
environment: an operation that the client issued is pending until the
environment completes it with success or failure.  User-initiated calls
(`Start`, `SendResultToServer`) are events as well; `SendResultToServer`
is enabled in the step relation once `CallRun` has fired, matching the
documented caller contract.
-/

namespace RequestResultRpc

/-- gRPC status codes, as in `grpc::StatusCode`. -/
inductive StatusCode
  | ok | cancelled | unknown | invalidArgument | deadlineExceeded
  | notFound | alreadyExists | permissionDenied | resourceExhausted
  | failedPrecondition | aborted | outOfRange | unimplemented
  | internal | unavailable | dataLoss | unauthenticated
deriving DecidableEq, Repr, Fintype

/-- The two kinds of `Write` the client performs: the initial request
(`BootStrapFinished`) and the final result payload (`SendResultToServer`). -/
inductive WriteKind
  | request | result
deriving DecidableEq, Repr

/-- Observable effects performed by handler bodies. -/
inductive Action
  | callRun          -- `callback_->CallRun()`
  | callCancel       -- `callback_->CallCancel()`
  | startRpcHook     -- subclass hook `StartRpc` (chooses the remote method)
  | populateRequest  -- subclass hook `PopulateServerRequest`
  | issueOpen        -- async open of the duplex call (inside `StartRpc`)
  | issueWrite (k : WriteKind)  -- `rw()->Write(...)`
  | issueRead        -- `rw()->Read(&resp_, ...)`
  | issueFinish      -- `rw()->Finish(&status_, ...)`
  | detachRpc        -- `rpc_.release()` (holder detached, stays alive)
  | destroyRpc       -- `rpc_.reset()` (holder destroyed)
  | logWarn          -- a warning-severity log message
  | logFatal         -- a fatal-severity log message (debug-build ABORTED)
deriving DecidableEq, Repr

/-- Asynchronous transport operations that can be outstanding on the channel. -/
inductive PendingOp
  | openOp        -- open issued by `Start`, completes into
                  -- `BootStrapFinished` / `StartUpFailed`
  | writeReq      -- request write, completes into
                  -- `WriteServerRequestComplete` / `StartUpFailed`
  | readDecision  -- decision read, completes into
                  -- `NotifyClientOfServerDecision` / `StartUpFailed`
  | writeResult   -- final payload write, completes into
                  -- `RpcHolder::Finish` / `RpcHolder::Error`
  | finish        -- close handshake, completes into
                  -- `RpcHolder::FinishSucceeded` / `RpcHolder::FinishFailed`
deriving DecidableEq, Repr

/-- The pre-decision operations: open, request write, decision read. -/
def isPre : PendingOp → Bool
  | .openOp => true
  | .writeReq => true
  | .readDecision => true
  | .writeResult => false
  | .finish => false

/-- The mutex-guarded fields of `RequestResultRpcClient`:
`callback_ != nullptr`, `rpc_ != nullptr`, and the `ok_to_proceed` bit of
the scratch response buffer `resp_`. -/
structure CState where
  callback : Bool
  rpc : Bool
  resp : Bool
deriving DecidableEq, Repr

/-- Global state: the client's guarded fields, liveness of the (unique)
`RpcHolder`, the operations outstanding on the channel, whether `Start`
was called, and the effect trace.  `debug` fixes NDEBUG for the session. -/
structure Sys where
  debug : Bool
  client : CState
  holderAlive : Bool
  pending : List PendingOp
  started : Bool
  trace : List (Action × Bool)
deriving DecidableEq, Repr

/-- Number of occurrences of action `a` in a trace. -/
def countA (a : Action) (tr : List (Action × Bool)) : Nat :=
  (tr.filter (fun e => e.1 = a)).length

/-- Total number of decision-callback invocations (`CallRun` + `CallCancel`). -/
def callCount (tr : List (Action × Bool)) : Nat :=
  countA Action.callRun tr + countA Action.callCancel tr

/-- `RequestResultRpcClient::RequestResultRpcClient`: `CHECK(callback_ != nullptr)`
aborts construction on a null callback; otherwise the instance starts with
both `callback_` and `rpc_` set. -/
def mkClient (debug : Bool) (callback : Option Unit) : Option Sys :=
  match callback with
  | none => none
  | some _ =>
      some { debug := debug
             client := { callback := true, rpc := true, resp := false }
             holderAlive := true
             pending := []
             started := false
             trace := [] }

/-- Initial state of a successfully constructed client. -/
def initSys (debug : Bool) : Sys :=
  { debug := debug
    client := { callback := true, rpc := true, resp := false }
    holderAlive := true
    pending := []
    started := false
    trace := [] }

/-- `RequestResultRpcClient::Start`: under the lock, calls the subclass hook
`StartRpc` (which issues the asynchronous open, tagged with
`BootStrapFinished` / `StartUpFailed`) and stores the reader/writer via
`rpc_->SetReaderWriter`; a null `rpc_` would be dereferenced. -/
def Start (s : Sys) : Option Sys :=
  if s.client.rpc = true then
    some { s with
      started := true
      trace := s.trace ++ [(Action.startRpcHook, true), (Action.issueOpen, true)]
      pending := s.pending ++ [PendingOp.openOp] }
  else none

/-- `RequestResultRpcClient::BootStrapFinished` (open succeeded): under the
lock, runs `PopulateServerRequest` and issues the request `Write` on
`rpc_->rw()` (null `rpc_` would be dereferenced). -/
def BootStrapFinished (s : Sys) : Option Sys :=
  if s.client.rpc = true then
    some { s with
      trace := s.trace ++ [(Action.populateRequest, true),
                           (Action.issueWrite WriteKind.request, true)]
      pending := s.pending ++ [PendingOp.writeReq] }
  else none

/-- `RequestResultRpcClient::WriteServerRequestComplete`: under the lock,
issues the decision `Read` into `resp_` (null `rpc_` would be dereferenced). -/
def WriteServerRequestComplete (s : Sys) : Option Sys :=
  if s.client.rpc = true then
    some { s with
      trace := s.trace ++ [(Action.issueRead, true)]
      pending := s.pending ++ [PendingOp.readDecision] }
  else none

/-- `RequestResultRpcClient::NotifyClientOfServerDecision`: under the lock,
reads `resp_.ok_to_proceed()`, clears `resp_`, nulls `callback_`; if granted,
releases the lock and calls `CallRun`; if denied, destroys the holder with
`rpc_.reset()` still under the lock, releases the lock and calls
`CallCancel`.  A null `callback_` would be dereferenced (`cb->Call...`). -/
def NotifyClientOfServerDecision (s : Sys) : Option Sys :=
  if s.client.callback = true then
    if s.client.resp = true then
      some { s with
        client := { callback := false, rpc := s.client.rpc, resp := false }
        trace := s.trace ++ [(Action.callRun, false)] }
    else
      some { s with
        client := { callback := false, rpc := false, resp := false }
        holderAlive := if s.client.rpc = true then false else s.holderAlive
        trace := s.trace ++ [(Action.destroyRpc, true), (Action.callCancel, false)] }
  else none

/-- `RequestResultRpcClient::StartUpFailed`: under the lock, if `rpc_` is
still present: logs a warning, detaches the holder (`rpc_.release()`),
issues `Finish` on the detached holder, nulls `callback_` (a null
`callback_` would be dereferenced by `cb->CallCancel()`), then releases
the lock and calls `CallCancel`.  If `rpc_` is already null the body is
skipped entirely. -/
def StartUpFailed (s : Sys) : Option Sys :=
  if s.client.rpc = true then
    if s.client.callback = true then
      some { s with
        client := { callback := false, rpc := false, resp := s.client.resp }
        trace := s.trace ++ [(Action.logWarn, true), (Action.detachRpc, true),
                             (Action.issueFinish, true), (Action.callCancel, false)]
        pending := s.pending ++ [PendingOp.finish] }
    else none
  else some s

/-- `RequestResultRpcClient::SendResultToServer`: under the lock, if `rpc_`
is null, returns immediately; otherwise detaches the holder
(`rpc_.release()`) and issues the result `Write` with
`CallbackForAsyncCleanup` (= `Finish` on success, `Error` on failure). -/
def SendResultToServer (s : Sys) : Option Sys :=
  if s.client.rpc = true then
    some { s with
      client := { callback := s.client.callback, rpc := false, resp := s.client.resp }
      trace := s.trace ++ [(Action.detachRpc, true),
                           (Action.issueWrite WriteKind.result, true)]
      pending := s.pending ++ [PendingOp.writeResult] }
  else some s

namespace RpcHolder

/-- `RpcHolder::FinishSucceeded` status classification: OK and CANCELLED
produce no log; otherwise one message is logged, at fatal severity when
this is a debug build and the status is ABORTED, at warning severity in
every other case. -/
def finishLog (debug : Bool) (code : StatusCode) : List Action :=
  if code = StatusCode.ok ∨ code = StatusCode.cancelled then []
  else if debug = true ∧ code = StatusCode.aborted then [Action.logFatal]
  else [Action.logWarn]

/-- `RpcHolder::Finish`: issues the close handshake on the reader/writer,
tagged with `FinishSucceeded` / `FinishFailed`.  Runs on the detached
holder, outside the client's lock; a deleted holder would be a
use-after-free. -/
def Finish (s : Sys) : Option Sys :=
  if s.holderAlive = true then
    some { s with
      trace := s.trace ++ [(Action.issueFinish, false)]
      pending := s.pending ++ [PendingOp.finish] }
  else none

/-- `RpcHolder::Error` (result write failed): logs a warning and still
calls `Finish` to retrieve and log the final status. -/
def Error (s : Sys) : Option Sys :=
  if s.holderAlive = true then
    some { s with
      trace := s.trace ++ [(Action.logWarn, false), (Action.issueFinish, false)]
      pending := s.pending ++ [PendingOp.finish] }
  else none

/-- `RpcHolder::FinishSucceeded`: classifies/logs the final status per
`finishLog`, then `delete this`. -/
def FinishSucceeded (code : StatusCode) (s : Sys) : Option Sys :=
  if s.holderAlive = true then
    some { s with
      holderAlive := false
      trace := s.trace ++ (finishLog s.debug code).map (fun a => (a, false)) }
  else none

/-- `RpcHolder::FinishFailed`: logs a warning, then `delete this`. -/
def FinishFailed (s : Sys) : Option Sys :=
  if s.holderAlive = true then
    some { s with
      holderAlive := false
      trace := s.trace ++ [(Action.logWarn, false)] }
  else none

end RpcHolder

/-- Events: user calls, and environment-chosen completions (success or
failure) of the outstanding transport operations.  `readOk` carries the
decision bit the server wrote into `resp_`; `finOk` carries the final
status code. -/
inductive Event
  | start
  | sendResult
  | openOk | openFail
  | writeReqOk | writeReqFail
  | readOk (decision : Bool) | readFail
  | writeResOk | writeResFail
  | finOk (code : StatusCode) | finFail
deriving DecidableEq, Repr

/-- Enabledness: a completion event requires its operation to be
outstanding; `Start` is called at most once; `SendResultToServer` is
called by the user only after `CallRun` fired (the documented caller
contract — the code itself does not check this, see `SendResultToServer`). -/
def enabled : Event → Sys → Bool
  | .start, s => !s.started
  | .sendResult, s => decide (0 < countA Action.callRun s.trace)
  | .openOk, s => decide (PendingOp.openOp ∈ s.pending)
  | .openFail, s => decide (PendingOp.openOp ∈ s.pending)
  | .writeReqOk, s => decide (PendingOp.writeReq ∈ s.pending)
  | .writeReqFail, s => decide (PendingOp.writeReq ∈ s.pending)
  | .readOk _, s => decide (PendingOp.readDecision ∈ s.pending)
  | .readFail, s => decide (PendingOp.readDecision ∈ s.pending)
  | .writeResOk, s => decide (PendingOp.writeResult ∈ s.pending)
  | .writeResFail, s => decide (PendingOp.writeResult ∈ s.pending)
  | .finOk _, s => decide (PendingOp.finish ∈ s.pending)
  | .finFail, s => decide (PendingOp.finish ∈ s.pending)

/-- Effect of an event: the completed operation is removed from the
outstanding set, then the registered handler runs (the success/failure
tags fixed by the `MakeFunction` registrations in the source).  `none`
models a crash (null dereference / use-after-free). -/
def applyEvent : Event → Sys → Option Sys
  | .start, s => Start s
  | .sendResult, s => SendResultToServer s
  | .openOk, s =>
      BootStrapFinished { s with pending := s.pending.erase PendingOp.openOp }
  | .openFail, s =>
      StartUpFailed { s with pending := s.pending.erase PendingOp.openOp }
  | .writeReqOk, s =>
      WriteServerRequestComplete { s with pending := s.pending.erase PendingOp.writeReq }
  | .writeReqFail, s =>
      StartUpFailed { s with pending := s.pending.erase PendingOp.writeReq }
  | .readOk d, s =>
      NotifyClientOfServerDecision
        { s with client := { s.client with resp := d }
                 pending := s.pending.erase PendingOp.readDecision }
  | .readFail, s =>
      StartUpFailed { s with pending := s.pending.erase PendingOp.readDecision }
  | .writeResOk, s =>
      RpcHolder.Finish { s with pending := s.pending.erase PendingOp.writeResult }
  | .writeResFail, s =>
      RpcHolder.Error { s with pending := s.pending.erase PendingOp.writeResult }
  | .finOk c, s =>
      RpcHolder.FinishSucceeded c { s with pending := s.pending.erase PendingOp.finish }
  | .finFail, s =>
      RpcHolder.FinishFailed { s with pending := s.pending.erase PendingOp.finish }

/-- One step of the system: some enabled event whose handler does not crash. -/
def StepR (s t : Sys) : Prop :=
  ∃ e, enabled e s = true ∧ applyEvent e s = some t

/-- States reachable from a freshly constructed client. -/
inductive Reachable : Sys → Prop
  | init (d : Bool) : Reachable (initSys d)
  | step {s t : Sys} : Reachable s → StepR s t → Reachable t

theorem countA_append (a : Action) (l₁ l₂ : List (Action × Bool)) :
    countA a (l₁ ++ l₂) = countA a l₁ + countA a l₂ := by
  simp [countA, List.filter_append]

theorem callCount_append (l₁ l₂ : List (Action × Bool)) :
    callCount (l₁ ++ l₂) = callCount l₁ + callCount l₂ := by
  simp only [callCount, countA_append]; omega

theorem mem_of_len_le_one {α : Type} [DecidableEq α] {l : List α} {a : α}
    (h : a ∈ l) (hl : l.length ≤ 1) : l = [a] := by
  cases l with
  | nil => cases h
  | cons b t =>
    cases t with
    | nil => simp only [List.mem_singleton] at h; subst h; rfl
    | cons c u => simp at hl

theorem pending_nil {l : List PendingOp} (h1 : l.any isPre = false)
    (h2 : PendingOp.finish ∉ l) (h3 : PendingOp.writeResult ∉ l) : l = [] := by
  cases l with
  | nil => rfl
  | cons p t =>
    exfalso
    cases p with
    | openOp => simp [isPre] at h1
    | writeReq => simp [isPre] at h1
    | readDecision => simp [isPre] at h1
    | writeResult => exact h3 (List.mem_cons_self _ _)
    | finish => exact h2 (List.mem_cons_self _ _)

/-- The inductive invariant of the transition system.  It packages the
exactly-once gating (`gate`), the single-outstanding-operation bound
(`pendLe`), ownership facts relating outstanding operations to the
guarded fields, once-ness of the result write and of the close
handshake, and the lock tags of every user-visible effect. -/
structure Inv (s : Sys) : Prop where
  pendLe : s.pending.length ≤ 1
  cntLe : callCount s.trace ≤ 1
  gate : s.client.callback = true ↔ callCount s.trace = 0
  preInv : s.pending.any isPre = true →
    s.client.rpc = true ∧ s.holderAlive = true ∧ callCount s.trace = 0
  notStarted : s.started = false →
    s.pending = [] ∧ s.trace = [] ∧ s.client.rpc = true ∧ s.holderAlive = true
  quiesce : s.started = true → s.pending.any isPre = true ∨ callCount s.trace = 1
  wresInv : PendingOp.writeResult ∈ s.pending →
    s.holderAlive = true ∧ s.client.rpc = false
  finInv : PendingOp.finish ∈ s.pending →
    s.holderAlive = true ∧ s.client.rpc = false
  rpcHolder : s.client.rpc = true → s.holderAlive = true
  wOnce : countA (Action.issueWrite WriteKind.result) s.trace ≤ 1
  wGate : 0 < countA (Action.issueWrite WriteKind.result) s.trace →
    s.client.rpc = false
  fOnce : countA Action.issueFinish s.trace ≤ 1
  fGate : 0 < countA Action.issueFinish s.trace →
    s.client.rpc = false ∧ PendingOp.writeResult ∉ s.pending ∧
      s.pending.any isPre = false
  cancelRpc : 0 < countA Action.callCancel s.trace → s.client.rpc = false
  lockTags : ∀ p ∈ s.trace,
    ((p.1 = Action.callRun ∨ p.1 = Action.callCancel) → p.2 = false) ∧
    ((p.1 = Action.populateRequest ∨ p.1 = Action.startRpcHook) → p.2 = true)

theorem inv_init (d : Bool) : Inv (initSys d) := by
  constructor <;> simp [initSys, callCount, countA]

theorem countA_eq_zero {a : Action} {tr : List (Action × Bool)}
    (h : ∀ e ∈ tr, e.1 ≠ a) : countA a tr = 0 := by
  induction tr with
  | nil => rfl
  | cons e rest ih =>
    have he : e.1 ≠ a := h e (List.mem_cons_self _ _)
    have hr : countA a rest = 0 := ih fun x hx => h x (List.mem_cons_of_mem _ hx)
    simpa [countA, List.filter_cons, he] using hr

theorem finishLog_mem (d : Bool) (c : StatusCode) :
    ∀ x ∈ RpcHolder.finishLog d c,
      x = Action.logWarn ∨ x = Action.logFatal := by
  intro x hx
  unfold RpcHolder.finishLog at hx
  split at hx
  · simp at hx
  · split at hx
    · right; simpa using hx
    · left; simpa using hx

theorem countA_finishLog_map (a : Action) (haw : a ≠ Action.logWarn)
    (haf : a ≠ Action.logFatal) (d : Bool) (c : StatusCode) :
    countA a ((RpcHolder.finishLog d c).map (fun x => (x, false))) = 0 := by
  apply countA_eq_zero
  intro e he
  simp only [List.mem_map] at he
  obtain ⟨x, hx, rfl⟩ := he
  rcases finishLog_mem d c x hx with rfl | rfl
  · exact Ne.symm haw
  · exact Ne.symm haf

theorem callCount_finishLog_map (d : Bool) (c : StatusCode) :
    callCount ((RpcHolder.finishLog d c).map (fun x => (x, false))) = 0 := by
  unfold callCount
  rw [countA_finishLog_map _ (by decide) (by decide),
      countA_finishLog_map _ (by decide) (by decide)]

/-- In a started state with no pre-decision operation outstanding but some
operation still pending, the callback has fired exactly once already. -/
theorem cnt_one_of_post {s : Sys} (hs : Inv s) (hnp : s.pending.any isPre = false)
    (hne : s.pending ≠ []) : callCount s.trace = 1 := by
  have hstart : s.started = true := by
    rcases Bool.eq_false_or_eq_true s.started with hb | hb
    · exact hb
    · exact absurd (hs.notStarted hb).1 hne
  rcases hs.quiesce hstart with h | h
  · simp [hnp] at h
  · exact h

theorem inv_start {s t : Sys} (hs : Inv s) (he : enabled Event.start s = true)
    (h : applyEvent Event.start s = some t) : Inv t := by
  have hns : s.started = false := by simpa [enabled] using he
  obtain ⟨hp, htr, hrpc, hh⟩ := hs.notStarted hns
  have hcb : s.client.callback = true := hs.gate.mpr (by rw [htr]; rfl)
  simp only [applyEvent] at h
  unfold Start at h
  rw [if_pos hrpc] at h
  injection h with h
  subst h
  constructor
  · simp [hp]
  · simp [htr, callCount, countA]
  · simp [htr, hcb, callCount, countA]
  · intro _
    exact ⟨hrpc, hh, by simp [htr, callCount, countA]⟩
  · intro h'
    have h'' : s.started = false → False := by intro _; exact absurd h' (by simp)
    exact absurd hns h''
  · intro _
    left
    simp [hp, isPre]
  · intro hx
    have hx' : PendingOp.writeResult ∈ s.pending ++ [PendingOp.openOp] := hx
    rw [hp] at hx'
    simp at hx'
  · intro hx
    have hx' : PendingOp.finish ∈ s.pending ++ [PendingOp.openOp] := hx
    rw [hp] at hx'
    simp at hx'
  · intro _
    exact hh
  · simp [htr, countA]
  · intro hx
    have hx' : 0 < countA (Action.issueWrite WriteKind.result)
        (s.trace ++ [(Action.startRpcHook, true), (Action.issueOpen, true)]) := hx
    rw [htr] at hx'
    exact absurd hx' (by decide)
  · simp [htr, countA]
  · intro hx
    have hx' : 0 < countA Action.issueFinish
        (s.trace ++ [(Action.startRpcHook, true), (Action.issueOpen, true)]) := hx
    rw [htr] at hx'
    exact absurd hx' (by decide)
  · intro hx
    have hx' : 0 < countA Action.callCancel
        (s.trace ++ [(Action.startRpcHook, true), (Action.issueOpen, true)]) := hx
    rw [htr] at hx'
    exact absurd hx' (by decide)
  · intro p hp'
    have hp'' : p ∈ s.trace ++ [(Action.startRpcHook, true), (Action.issueOpen, true)] := hp'
    rw [htr] at hp''
    simp only [List.nil_append, List.mem_cons, List.not_mem_nil, or_false] at hp''
    rcases hp'' with rfl | rfl
    · exact ⟨by decide, by decide⟩
    · exact ⟨by decide, by decide⟩

/-- While the client still owns the holder, no result write, no finish and
no `CallCancel` can have happened yet. -/
theorem counts_of_rpc {s : Sys} (hs : Inv s) (hrpc : s.client.rpc = true) :
    countA (Action.issueWrite WriteKind.result) s.trace = 0 ∧
    countA Action.issueFinish s.trace = 0 ∧
    countA Action.callCancel s.trace = 0 := by
  refine ⟨?_, ?_, ?_⟩
  · rcases Nat.eq_zero_or_pos (countA (Action.issueWrite WriteKind.result) s.trace)
      with h0 | hpos
    · exact h0
    · exact absurd hrpc (by rw [hs.wGate hpos]; decide)
  · rcases Nat.eq_zero_or_pos (countA Action.issueFinish s.trace) with h0 | hpos
    · exact h0
    · exact absurd hrpc (by rw [(hs.fGate hpos).1]; decide)
  · rcases Nat.eq_zero_or_pos (countA Action.callCancel s.trace) with h0 | hpos
    · exact h0
    · exact absurd hrpc (by rw [hs.cancelRpc hpos]; decide)

theorem inv_openOk {s t : Sys} (hs : Inv s) (he : enabled Event.openOk s = true)
    (h : applyEvent Event.openOk s = some t) : Inv t := by
  have hmem : PendingOp.openOp ∈ s.pending := by simpa [enabled] using he
  have hpend := mem_of_len_le_one hmem hs.pendLe
  have hpre : s.pending.any isPre = true := by rw [hpend]; rfl
  obtain ⟨hrpc, hh, hcnt⟩ := hs.preInv hpre
  have hcb : s.client.callback = true := hs.gate.mpr hcnt
  obtain ⟨hw0, hf0, hcc0⟩ := counts_of_rpc hs hrpc
  have herase : s.pending.erase PendingOp.openOp = [] := by rw [hpend]; rfl
  simp only [applyEvent] at h
  unfold BootStrapFinished at h
  rw [herase] at h
  split at h
  case isFalse hc => exact absurd hrpc hc
  injection h with h
  subst h
  constructor
  · simp
  · show callCount (s.trace ++ [(Action.populateRequest, true),
      (Action.issueWrite WriteKind.request, true)]) ≤ 1
    rw [callCount_append, hcnt]
    decide
  · show s.client.callback = true ↔ callCount (s.trace ++ [(Action.populateRequest, true),
      (Action.issueWrite WriteKind.request, true)]) = 0
    rw [callCount_append, hcnt, hcb]
    decide
  · intro _
    refine ⟨hrpc, hh, ?_⟩
    show callCount (s.trace ++ [(Action.populateRequest, true),
      (Action.issueWrite WriteKind.request, true)]) = 0
    rw [callCount_append, hcnt]
    decide
  · intro h'
    have h'' : s.started = false := h'
    have hx := (hs.notStarted h'').1
    rw [hpend] at hx
    simp at hx
  · intro _
    left
    show (([] : List PendingOp) ++ [PendingOp.writeReq]).any isPre = true
    decide
  · intro hx
    have hx' : PendingOp.writeResult ∈ ([] : List PendingOp) ++ [PendingOp.writeReq] := hx
    simp at hx'
  · intro hx
    have hx' : PendingOp.finish ∈ ([] : List PendingOp) ++ [PendingOp.writeReq] := hx
    simp at hx'
  · intro _
    exact hh
  · show countA (Action.issueWrite WriteKind.result) (s.trace ++ [(Action.populateRequest, true),
      (Action.issueWrite WriteKind.request, true)]) ≤ 1
    rw [countA_append, hw0]
    decide
  · intro hx
    have hx' : 0 < countA (Action.issueWrite WriteKind.result)
        (s.trace ++ [(Action.populateRequest, true),
          (Action.issueWrite WriteKind.request, true)]) := hx
    rw [countA_append, hw0] at hx'
    exact absurd hx' (by decide)
  · show countA Action.issueFinish (s.trace ++ [(Action.populateRequest, true),
      (Action.issueWrite WriteKind.request, true)]) ≤ 1
    rw [countA_append, hf0]
    decide
  · intro hx
    have hx' : 0 < countA Action.issueFinish
        (s.trace ++ [(Action.populateRequest, true),
          (Action.issueWrite WriteKind.request, true)]) := hx
    rw [countA_append, hf0] at hx'
    exact absurd hx' (by decide)
  · intro hx
    have hx' : 0 < countA Action.callCancel
        (s.trace ++ [(Action.populateRequest, true),
          (Action.issueWrite WriteKind.request, true)]) := hx
    rw [countA_append, hcc0] at hx'
    exact absurd hx' (by decide)
  · intro p hp'
    have hp'' : p ∈ s.trace ++ [(Action.populateRequest, true),
      (Action.issueWrite WriteKind.request, true)] := hp'
    rcases List.mem_append.mp hp'' with h1 | h2
    · exact hs.lockTags p h1
    · simp only [List.mem_cons, List.not_mem_nil, or_false] at h2
      rcases h2 with rfl | rfl
      · exact ⟨by decide, by decide⟩
      · exact ⟨by decide, by decide⟩

theorem inv_writeReqOk {s t : Sys} (hs : Inv s)
    (he : enabled Event.writeReqOk s = true)
    (h : applyEvent Event.writeReqOk s = some t) : Inv t := by
  have hmem : PendingOp.writeReq ∈ s.pending := by simpa [enabled] using he
  have hpend := mem_of_len_le_one hmem hs.pendLe
  have hpre : s.pending.any isPre = true := by rw [hpend]; rfl
  obtain ⟨hrpc, hh, hcnt⟩ := hs.preInv hpre
  have hcb : s.client.callback = true := hs.gate.mpr hcnt
  obtain ⟨hw0, hf0, hcc0⟩ := counts_of_rpc hs hrpc
  have herase : s.pending.erase PendingOp.writeReq = [] := by rw [hpend]; rfl
  simp only [applyEvent] at h
  unfold WriteServerRequestComplete at h
  rw [herase] at h
  split at h
  case isFalse hc => exact absurd hrpc hc
  injection h with h
  subst h
  constructor
  · simp
  · show callCount (s.trace ++ [(Action.issueRead, true)]) ≤ 1
    rw [callCount_append, hcnt]
    decide
  · show s.client.callback = true ↔
      callCount (s.trace ++ [(Action.issueRead, true)]) = 0
    rw [callCount_append, hcnt, hcb]
    decide
  · intro _
    refine ⟨hrpc, hh, ?_⟩
    show callCount (s.trace ++ [(Action.issueRead, true)]) = 0
    rw [callCount_append, hcnt]
    decide
  · intro h'
    have h'' : s.started = false := h'
    have hx := (hs.notStarted h'').1
    rw [hpend] at hx
    simp at hx
  · intro _
    left
    show (([] : List PendingOp) ++ [PendingOp.readDecision]).any isPre = true
    decide
  · intro hx
    have hx' : PendingOp.writeResult ∈ ([] : List PendingOp) ++ [PendingOp.readDecision] := hx
    simp at hx'
  · intro hx
    have hx' : PendingOp.finish ∈ ([] : List PendingOp) ++ [PendingOp.readDecision] := hx
    simp at hx'
  · intro _
    exact hh
  · show countA (Action.issueWrite WriteKind.result)
      (s.trace ++ [(Action.issueRead, true)]) ≤ 1
    rw [countA_append, hw0]
    decide
  · intro hx
    have hx' : 0 < countA (Action.issueWrite WriteKind.result)
        (s.trace ++ [(Action.issueRead, true)]) := hx
    rw [countA_append, hw0] at hx'
    exact absurd hx' (by decide)
  · show countA Action.issueFinish (s.trace ++ [(Action.issueRead, true)]) ≤ 1
    rw [countA_append, hf0]
    decide
  · intro hx
    have hx' : 0 < countA Action.issueFinish
        (s.trace ++ [(Action.issueRead, true)]) := hx
    rw [countA_append, hf0] at hx'
    exact absurd hx' (by decide)
  · intro hx
    have hx' : 0 < countA Action.callCancel
        (s.trace ++ [(Action.issueRead, true)]) := hx
    rw [countA_append, hcc0] at hx'
    exact absurd hx' (by decide)
  · intro p hp'
    have hp'' : p ∈ s.trace ++ [(Action.issueRead, true)] := hp'
    rcases List.mem_append.mp hp'' with h1 | h2
    · exact hs.lockTags p h1
    · simp only [List.mem_cons, List.not_mem_nil, or_false] at h2
      rcases h2 with rfl
      exact ⟨by decide, by decide⟩

theorem inv_readOk {s t : Sys} {d : Bool} (hs : Inv s)
    (he : enabled (Event.readOk d) s = true)
    (h : applyEvent (Event.readOk d) s = some t) : Inv t := by
  have hmem : PendingOp.readDecision ∈ s.pending := by simpa [enabled] using he
  have hpend := mem_of_len_le_one hmem hs.pendLe
  have hpre : s.pending.any isPre = true := by rw [hpend]; rfl
  obtain ⟨hrpc, hh, hcnt⟩ := hs.preInv hpre
  have hcb : s.client.callback = true := hs.gate.mpr hcnt
  obtain ⟨hw0, hf0, hcc0⟩ := counts_of_rpc hs hrpc
  have herase : s.pending.erase PendingOp.readDecision = [] := by rw [hpend]; rfl
  simp only [applyEvent] at h
  unfold NotifyClientOfServerDecision at h
  rw [herase] at h
  cases d with
  | true =>
    split at h
    case isFalse hc => exact absurd hcb hc
    split at h
    case isFalse hc => exact absurd rfl hc
    injection h with h
    subst h
    constructor
    · show ([] : List PendingOp).length ≤ 1
      decide
    · show callCount (s.trace ++ [(Action.callRun, false)]) ≤ 1
      rw [callCount_append, hcnt]
      decide
    · show false = true ↔ callCount (s.trace ++ [(Action.callRun, false)]) = 0
      rw [callCount_append, hcnt]
      decide
    · intro hx
      have hx' : ([] : List PendingOp).any isPre = true := hx
      simp at hx'
    · intro h'
      have h'' : s.started = false := h'
      have hx := (hs.notStarted h'').1
      rw [hpend] at hx
      simp at hx
    · intro _
      right
      show callCount (s.trace ++ [(Action.callRun, false)]) = 1
      rw [callCount_append, hcnt]
      decide
    · intro hx
      have hx' : PendingOp.writeResult ∈ ([] : List PendingOp) := hx
      simp at hx'
    · intro hx
      have hx' : PendingOp.finish ∈ ([] : List PendingOp) := hx
      simp at hx'
    · intro _
      exact hh
    · show countA (Action.issueWrite WriteKind.result)
        (s.trace ++ [(Action.callRun, false)]) ≤ 1
      rw [countA_append, hw0]
      decide
    · intro hx
      have hx' : 0 < countA (Action.issueWrite WriteKind.result)
          (s.trace ++ [(Action.callRun, false)]) := hx
      rw [countA_append, hw0] at hx'
      exact absurd hx' (by decide)
    · show countA Action.issueFinish (s.trace ++ [(Action.callRun, false)]) ≤ 1
      rw [countA_append, hf0]
      decide
    · intro hx
      have hx' : 0 < countA Action.issueFinish
          (s.trace ++ [(Action.callRun, false)]) := hx
      rw [countA_append, hf0] at hx'
      exact absurd hx' (by decide)
    · intro hx
      have hx' : 0 < countA Action.callCancel
          (s.trace ++ [(Action.callRun, false)]) := hx
      rw [countA_append, hcc0] at hx'
      exact absurd hx' (by decide)
    · intro p hp'
      have hp'' : p ∈ s.trace ++ [(Action.callRun, false)] := hp'
      rcases List.mem_append.mp hp'' with h1 | h2
      · exact hs.lockTags p h1
      · simp only [List.mem_cons, List.not_mem_nil, or_false] at h2
        rcases h2 with rfl
        exact ⟨by decide, by decide⟩
  | false =>
    split at h
    case isFalse hc => exact absurd hcb hc
    split at h
    case isTrue hc => exact absurd hc (show ¬(false = true) by decide)
    injection h with h
    subst h
    constructor
    · show ([] : List PendingOp).length ≤ 1
      decide
    · show callCount (s.trace ++ [(Action.destroyRpc, true),
        (Action.callCancel, false)]) ≤ 1
      rw [callCount_append, hcnt]
      decide
    · show false = true ↔ callCount (s.trace ++ [(Action.destroyRpc, true),
        (Action.callCancel, false)]) = 0
      rw [callCount_append, hcnt]
      decide
    · intro hx
      have hx' : ([] : List PendingOp).any isPre = true := hx
      simp at hx'
    · intro h'
      have h'' : s.started = false := h'
      have hx := (hs.notStarted h'').1
      rw [hpend] at hx
      simp at hx
    · intro _
      right
      show callCount (s.trace ++ [(Action.destroyRpc, true),
        (Action.callCancel, false)]) = 1
      rw [callCount_append, hcnt]
      decide
    · intro hx
      have hx' : PendingOp.writeResult ∈ ([] : List PendingOp) := hx
      simp at hx'
    · intro hx
      have hx' : PendingOp.finish ∈ ([] : List PendingOp) := hx
      simp at hx'
    · intro h'
      exact absurd h' (show ¬(false = true) by decide)
    · show countA (Action.issueWrite WriteKind.result)
        (s.trace ++ [(Action.destroyRpc, true), (Action.callCancel, false)]) ≤ 1
      rw [countA_append, hw0]
      decide
    · intro _
      rfl
    · show countA Action.issueFinish
        (s.trace ++ [(Action.destroyRpc, true), (Action.callCancel, false)]) ≤ 1
      rw [countA_append, hf0]
      decide
    · intro _
      refine ⟨rfl, ?_, ?_⟩
      · show PendingOp.writeResult ∉ ([] : List PendingOp)
        decide
      · show ([] : List PendingOp).any isPre = false
        decide
    · intro _
      rfl
    · intro p hp'
      have hp'' : p ∈ s.trace ++ [(Action.destroyRpc, true),
        (Action.callCancel, false)] := hp'
      rcases List.mem_append.mp hp'' with h1 | h2
      · exact hs.lockTags p h1
      · simp only [List.mem_cons, List.not_mem_nil, or_false] at h2
        rcases h2 with rfl | rfl
        · exact ⟨by decide, by decide⟩
        · exact ⟨by decide, by decide⟩

theorem StartUpFailed_eq {s : Sys} (hrpc : s.client.rpc = true)
    (hcb : s.client.callback = true) :
    StartUpFailed s = some { s with
      client := { callback := false, rpc := false, resp := s.client.resp }
      trace := s.trace ++ [(Action.logWarn, true), (Action.detachRpc, true),
                           (Action.issueFinish, true), (Action.callCancel, false)]
      pending := s.pending ++ [PendingOp.finish] } := by
  simp [StartUpFailed, hrpc, hcb]

theorem inv_startUpFailed_aux {s t : Sys} (op : PendingOp) (hs : Inv s)
    (hop : isPre op = true) (hmem : op ∈ s.pending)
    (h : StartUpFailed { s with pending := s.pending.erase op } = some t) :
    Inv t := by
  have hpend := mem_of_len_le_one hmem hs.pendLe
  have hpre : s.pending.any isPre = true := by rw [hpend]; simp [hop]
  obtain ⟨hrpc, hh, hcnt⟩ := hs.preInv hpre
  have hcb : s.client.callback = true := hs.gate.mpr hcnt
  obtain ⟨hw0, hf0, hcc0⟩ := counts_of_rpc hs hrpc
  have herase : s.pending.erase op = [] := by rw [hpend]; simp
  rw [herase] at h
  rw [StartUpFailed_eq
    (show ({ s with pending := ([] : List PendingOp) } : Sys).client.rpc = true from hrpc)
    (show ({ s with pending := ([] : List PendingOp) } : Sys).client.callback = true from hcb)] at h
  injection h with h
  subst h
  constructor
  · show (([] : List PendingOp) ++ [PendingOp.finish]).length ≤ 1
    decide
  · show callCount (s.trace ++ [(Action.logWarn, true), (Action.detachRpc, true),
      (Action.issueFinish, true), (Action.callCancel, false)]) ≤ 1
    rw [callCount_append, hcnt]
    decide
  · show false = true ↔ callCount (s.trace ++ [(Action.logWarn, true),
      (Action.detachRpc, true), (Action.issueFinish, true),
      (Action.callCancel, false)]) = 0
    rw [callCount_append, hcnt]
    decide
  · intro hx
    have hx' : (([] : List PendingOp) ++ [PendingOp.finish]).any isPre = true := hx
    simp [isPre] at hx'
  · intro h'
    have h'' : s.started = false := h'
    have hx := (hs.notStarted h'').1
    rw [hpend] at hx
    simp at hx
  · intro _
    right
    show callCount (s.trace ++ [(Action.logWarn, true), (Action.detachRpc, true),
      (Action.issueFinish, true), (Action.callCancel, false)]) = 1
    rw [callCount_append, hcnt]
    decide
  · intro hx
    have hx' : PendingOp.writeResult ∈ ([] : List PendingOp) ++ [PendingOp.finish] := hx
    simp at hx'
  · intro _
    exact ⟨hh, rfl⟩
  · intro h'
    exact absurd h' (show ¬(false = true) by decide)
  · show countA (Action.issueWrite WriteKind.result)
      (s.trace ++ [(Action.logWarn, true), (Action.detachRpc, true),
        (Action.issueFinish, true), (Action.callCancel, false)]) ≤ 1
    rw [countA_append, hw0]
    decide
  · intro _
    rfl
  · show countA Action.issueFinish
      (s.trace ++ [(Action.logWarn, true), (Action.detachRpc, true),
        (Action.issueFinish, true), (Action.callCancel, false)]) ≤ 1
    rw [countA_append, hf0]
    decide
  · intro _
    refine ⟨rfl, ?_, ?_⟩
    · show PendingOp.writeResult ∉ ([] : List PendingOp) ++ [PendingOp.finish]
      decide
    · show (([] : List PendingOp) ++ [PendingOp.finish]).any isPre = false
      decide
  · intro _
    rfl
  · intro p hp'
    have hp'' : p ∈ s.trace ++ [(Action.logWarn, true), (Action.detachRpc, true),
      (Action.issueFinish, true), (Action.callCancel, false)] := hp'
    rcases List.mem_append.mp hp'' with h1 | h2
    · exact hs.lockTags p h1
    · simp only [List.mem_cons, List.not_mem_nil, or_false] at h2
      rcases h2 with rfl | rfl | rfl | rfl
      · exact ⟨by decide, by decide⟩
      · exact ⟨by decide, by decide⟩
      · exact ⟨by decide, by decide⟩
      · exact ⟨by decide, by decide⟩

theorem inv_openFail {s t : Sys} (hs : Inv s)
    (he : enabled Event.openFail s = true)
    (h : applyEvent Event.openFail s = some t) : Inv t := by
  have hmem : PendingOp.openOp ∈ s.pending := by simpa [enabled] using he
  simp only [applyEvent] at h
  exact inv_startUpFailed_aux PendingOp.openOp hs rfl hmem h

theorem inv_writeReqFail {s t : Sys} (hs : Inv s)
    (he : enabled Event.writeReqFail s = true)
    (h : applyEvent Event.writeReqFail s = some t) : Inv t := by
  have hmem : PendingOp.writeReq ∈ s.pending := by simpa [enabled] using he
  simp only [applyEvent] at h
  exact inv_startUpFailed_aux PendingOp.writeReq hs rfl hmem h

theorem inv_readFail {s t : Sys} (hs : Inv s)
    (he : enabled Event.readFail s = true)
    (h : applyEvent Event.readFail s = some t) : Inv t := by
  have hmem : PendingOp.readDecision ∈ s.pending := by simpa [enabled] using he
  simp only [applyEvent] at h
  exact inv_startUpFailed_aux PendingOp.readDecision hs rfl hmem h

theorem SendResultToServer_eq {s : Sys} (hrpc : s.client.rpc = true) :
    SendResultToServer s = some { s with
      client := { callback := s.client.callback, rpc := false, resp := s.client.resp }
      trace := s.trace ++ [(Action.detachRpc, true),
                           (Action.issueWrite WriteKind.result, true)]
      pending := s.pending ++ [PendingOp.writeResult] } := by
  simp [SendResultToServer, hrpc]

theorem SendResultToServer_noop {s : Sys} (hrpc : s.client.rpc = false) :
    SendResultToServer s = some s := by
  simp [SendResultToServer, hrpc]

theorem RpcHolder.Finish_eq {s : Sys} (hh : s.holderAlive = true) :
    RpcHolder.Finish s = some { s with
      trace := s.trace ++ [(Action.issueFinish, false)]
      pending := s.pending ++ [PendingOp.finish] } := by
  simp [RpcHolder.Finish, hh]

theorem RpcHolder.Error_eq {s : Sys} (hh : s.holderAlive = true) :
    RpcHolder.Error s = some { s with
      trace := s.trace ++ [(Action.logWarn, false), (Action.issueFinish, false)]
      pending := s.pending ++ [PendingOp.finish] } := by
  simp [RpcHolder.Error, hh]

theorem RpcHolder.FinishSucceeded_eq {s : Sys} (c : StatusCode)
    (hh : s.holderAlive = true) :
    RpcHolder.FinishSucceeded c s = some { s with
      holderAlive := false
      trace := s.trace ++ (RpcHolder.finishLog s.debug c).map (fun a => (a, false)) } := by
  simp [RpcHolder.FinishSucceeded, hh]

theorem RpcHolder.FinishFailed_eq {s : Sys} (hh : s.holderAlive = true) :
    RpcHolder.FinishFailed s = some { s with
      holderAlive := false
      trace := s.trace ++ [(Action.logWarn, false)] } := by
  simp [RpcHolder.FinishFailed, hh]

theorem inv_sendResult {s t : Sys} (hs : Inv s)
    (he : enabled Event.sendResult s = true)
    (h : applyEvent Event.sendResult s = some t) : Inv t := by
  have hrun : 0 < countA Action.callRun s.trace := by simpa [enabled] using he
  simp only [applyEvent] at h
  by_cases hrpc : s.client.rpc = true
  · have hpreF : s.pending.any isPre = false := by
      rcases Bool.eq_false_or_eq_true (s.pending.any isPre) with hb | hb
      · have hz := (hs.preInv hb).2.2
        unfold callCount at hz
        omega
      · exact hb
    have hfn : PendingOp.finish ∉ s.pending := fun hx =>
      absurd hrpc (by rw [(hs.finInv hx).2]; decide)
    have hwn : PendingOp.writeResult ∉ s.pending := fun hx =>
      absurd hrpc (by rw [(hs.wresInv hx).2]; decide)
    have hpend0 : s.pending = [] := pending_nil hpreF hfn hwn
    have hh := hs.rpcHolder hrpc
    obtain ⟨hw0, hf0, hcc0⟩ := counts_of_rpc hs hrpc
    have hcnt1 : callCount s.trace = 1 := by
      have h1 := hs.cntLe
      unfold callCount at h1 ⊢
      omega
    have hcbf : s.client.callback = false := by
      rcases Bool.eq_false_or_eq_true s.client.callback with hb | hb
      · exact absurd (hs.gate.mp hb) (by rw [hcnt1]; decide)
      · exact hb
    have hE : callCount [(Action.detachRpc, true),
        (Action.issueWrite WriteKind.result, true)] = 0 := by decide
    rw [SendResultToServer_eq hrpc] at h
    injection h with h
    subst h
    constructor
    · show (s.pending ++ [PendingOp.writeResult]).length ≤ 1
      rw [hpend0]
      decide
    · show callCount (s.trace ++ [(Action.detachRpc, true),
        (Action.issueWrite WriteKind.result, true)]) ≤ 1
      rw [callCount_append, hcnt1, hE]
    · show s.client.callback = true ↔ callCount (s.trace ++ [(Action.detachRpc, true),
        (Action.issueWrite WriteKind.result, true)]) = 0
      rw [callCount_append, hcnt1, hE, hcbf]
      decide
    · intro hx
      have hx' : (s.pending ++ [PendingOp.writeResult]).any isPre = true := hx
      rw [hpend0] at hx'
      simp [isPre] at hx'
    · intro h'
      have h'' : s.started = false := h'
      have htr := (hs.notStarted h'').2.1
      rw [htr] at hrun
      exact absurd hrun (by decide)
    · intro _
      right
      show callCount (s.trace ++ [(Action.detachRpc, true),
        (Action.issueWrite WriteKind.result, true)]) = 1
      rw [callCount_append, hcnt1, hE]
    · intro _
      exact ⟨hh, rfl⟩
    · intro hx
      have hx' : PendingOp.finish ∈ s.pending ++ [PendingOp.writeResult] := hx
      rw [hpend0] at hx'
      simp at hx'
    · intro h'
      exact absurd h' (show ¬(false = true) by decide)
    · show countA (Action.issueWrite WriteKind.result) (s.trace ++ [(Action.detachRpc, true),
        (Action.issueWrite WriteKind.result, true)]) ≤ 1
      rw [countA_append, hw0]
      decide
    · intro _
      rfl
    · show countA Action.issueFinish (s.trace ++ [(Action.detachRpc, true),
        (Action.issueWrite WriteKind.result, true)]) ≤ 1
      rw [countA_append, hf0]
      decide
    · intro hx
      exfalso
      have hx' : 0 < countA Action.issueFinish (s.trace ++ [(Action.detachRpc, true),
        (Action.issueWrite WriteKind.result, true)]) := hx
      rw [countA_append, hf0] at hx'
      exact absurd hx' (by decide)
    · intro _
      rfl
    · intro p hp'
      have hp'' : p ∈ s.trace ++ [(Action.detachRpc, true),
        (Action.issueWrite WriteKind.result, true)] := hp'
      rcases List.mem_append.mp hp'' with h1 | h2
      · exact hs.lockTags p h1
      · simp only [List.mem_cons, List.not_mem_nil, or_false] at h2
        rcases h2 with rfl | rfl
        · exact ⟨by decide, by decide⟩
        · exact ⟨by decide, by decide⟩
  · have hrpcf : s.client.rpc = false := by
      rcases Bool.eq_false_or_eq_true s.client.rpc with hb | hb
      · exact absurd hb hrpc
      · exact hb
    rw [SendResultToServer_noop hrpcf] at h
    injection h with h
    subst h
    exact hs

theorem inv_writeResOk {s t : Sys} (hs : Inv s)
    (he : enabled Event.writeResOk s = true)
    (h : applyEvent Event.writeResOk s = some t) : Inv t := by
  have hmem : PendingOp.writeResult ∈ s.pending := by simpa [enabled] using he
  have hpend := mem_of_len_le_one hmem hs.pendLe
  obtain ⟨hh, hrpcf⟩ := hs.wresInv hmem
  have hcnt1 : callCount s.trace = 1 := by
    apply cnt_one_of_post hs
    · rw [hpend]; rfl
    · rw [hpend]; simp
  have hf0 : countA Action.issueFinish s.trace = 0 := by
    rcases Nat.eq_zero_or_pos (countA Action.issueFinish s.trace) with h0 | hpos
    · exact h0
    · exact absurd hmem (hs.fGate hpos).2.1
  have herase : s.pending.erase PendingOp.writeResult = [] := by rw [hpend]; rfl
  simp only [applyEvent] at h
  rw [herase] at h
  rw [RpcHolder.Finish_eq
    (show ({ s with pending := ([] : List PendingOp) } : Sys).holderAlive = true from hh)] at h
  injection h with h
  subst h
  constructor
  · show (([] : List PendingOp) ++ [PendingOp.finish]).length ≤ 1
    decide
  · show callCount (s.trace ++ [(Action.issueFinish, false)]) ≤ 1
    rw [callCount_append, hcnt1]
    decide
  · show s.client.callback = true ↔
      callCount (s.trace ++ [(Action.issueFinish, false)]) = 0
    rw [callCount_append, (show callCount [(Action.issueFinish, false)] = 0 by decide)]
    simpa using hs.gate
  · intro hx
    have hx' : (([] : List PendingOp) ++ [PendingOp.finish]).any isPre = true := hx
    simp [isPre] at hx'
  · intro h'
    have h'' : s.started = false := h'
    have hx := (hs.notStarted h'').1
    rw [hpend] at hx
    simp at hx
  · intro _
    right
    show callCount (s.trace ++ [(Action.issueFinish, false)]) = 1
    rw [callCount_append, hcnt1]
    decide
  · intro hx
    have hx' : PendingOp.writeResult ∈ ([] : List PendingOp) ++ [PendingOp.finish] := hx
    simp at hx'
  · intro _
    exact ⟨hh, hrpcf⟩
  · intro _
    exact hh
  · show countA (Action.issueWrite WriteKind.result)
      (s.trace ++ [(Action.issueFinish, false)]) ≤ 1
    rw [countA_append,
      (show countA (Action.issueWrite WriteKind.result) [(Action.issueFinish, false)] = 0
        by decide)]
    have h1 := hs.wOnce
    omega
  · intro _
    exact hrpcf
  · show countA Action.issueFinish (s.trace ++ [(Action.issueFinish, false)]) ≤ 1
    rw [countA_append, hf0]
    decide
  · intro _
    refine ⟨hrpcf, ?_, ?_⟩
    · show PendingOp.writeResult ∉ ([] : List PendingOp) ++ [PendingOp.finish]
      decide
    · show (([] : List PendingOp) ++ [PendingOp.finish]).any isPre = false
      decide
  · intro _
    exact hrpcf
  · intro p hp'
    have hp'' : p ∈ s.trace ++ [(Action.issueFinish, false)] := hp'
    rcases List.mem_append.mp hp'' with h1 | h2
    · exact hs.lockTags p h1
    · simp only [List.mem_cons, List.not_mem_nil, or_false] at h2
      rcases h2 with rfl
      exact ⟨by decide, by decide⟩

theorem inv_writeResFail {s t : Sys} (hs : Inv s)
    (he : enabled Event.writeResFail s = true)
    (h : applyEvent Event.writeResFail s = some t) : Inv t := by
  have hmem : PendingOp.writeResult ∈ s.pending := by simpa [enabled] using he
  have hpend := mem_of_len_le_one hmem hs.pendLe
  obtain ⟨hh, hrpcf⟩ := hs.wresInv hmem
  have hcnt1 : callCount s.trace = 1 := by
    apply cnt_one_of_post hs
    · rw [hpend]; rfl
    · rw [hpend]; simp
  have hf0 : countA Action.issueFinish s.trace = 0 := by
    rcases Nat.eq_zero_or_pos (countA Action.issueFinish s.trace) with h0 | hpos
    · exact h0
    · exact absurd hmem (hs.fGate hpos).2.1
  have herase : s.pending.erase PendingOp.writeResult = [] := by rw [hpend]; rfl
  simp only [applyEvent] at h
  rw [herase] at h
  rw [RpcHolder.Error_eq
    (show ({ s with pending := ([] : List PendingOp) } : Sys).holderAlive = true from hh)] at h
  injection h with h
  subst h
  constructor
  · show (([] : List PendingOp) ++ [PendingOp.finish]).length ≤ 1
    decide
  · show callCount (s.trace ++ [(Action.logWarn, false), (Action.issueFinish, false)]) ≤ 1
    rw [callCount_append, hcnt1]
    decide
  · show s.client.callback = true ↔
      callCount (s.trace ++ [(Action.logWarn, false), (Action.issueFinish, false)]) = 0
    rw [callCount_append,
      (show callCount [(Action.logWarn, false), (Action.issueFinish, false)] = 0 by decide)]
    simpa using hs.gate
  · intro hx
    have hx' : (([] : List PendingOp) ++ [PendingOp.finish]).any isPre = true := hx
    simp [isPre] at hx'
  · intro h'
    have h'' : s.started = false := h'
    have hx := (hs.notStarted h'').1
    rw [hpend] at hx
    simp at hx
  · intro _
    right
    show callCount (s.trace ++ [(Action.logWarn, false), (Action.issueFinish, false)]) = 1
    rw [callCount_append, hcnt1]
    decide
  · intro hx
    have hx' : PendingOp.writeResult ∈ ([] : List PendingOp) ++ [PendingOp.finish] := hx
    simp at hx'
  · intro _
    exact ⟨hh, hrpcf⟩
  · intro _
    exact hh
  · show countA (Action.issueWrite WriteKind.result)
      (s.trace ++ [(Action.logWarn, false), (Action.issueFinish, false)]) ≤ 1
    rw [countA_append,
      (show countA (Action.issueWrite WriteKind.result)
        [(Action.logWarn, false), (Action.issueFinish, false)] = 0 by decide)]
    have h1 := hs.wOnce
    omega
  · intro _
    exact hrpcf
  · show countA Action.issueFinish
      (s.trace ++ [(Action.logWarn, false), (Action.issueFinish, false)]) ≤ 1
    rw [countA_append, hf0]
    decide
  · intro _
    refine ⟨hrpcf, ?_, ?_⟩
    · show PendingOp.writeResult ∉ ([] : List PendingOp) ++ [PendingOp.finish]
      decide
    · show (([] : List PendingOp) ++ [PendingOp.finish]).any isPre = false
      decide
  · intro _
    exact hrpcf
  · intro p hp'
    have hp'' : p ∈ s.trace ++ [(Action.logWarn, false), (Action.issueFinish, false)] := hp'
    rcases List.mem_append.mp hp'' with h1 | h2
    · exact hs.lockTags p h1
    · simp only [List.mem_cons, List.not_mem_nil, or_false] at h2
      rcases h2 with rfl | rfl
      · exact ⟨by decide, by decide⟩
      · exact ⟨by decide, by decide⟩

theorem inv_finOk {s t : Sys} {c : StatusCode} (hs : Inv s)
    (he : enabled (Event.finOk c) s = true)
    (h : applyEvent (Event.finOk c) s = some t) : Inv t := by
  have hmem : PendingOp.finish ∈ s.pending := by simpa [enabled] using he
  have hpend := mem_of_len_le_one hmem hs.pendLe
  obtain ⟨hh, hrpcf⟩ := hs.finInv hmem
  have hcnt1 : callCount s.trace = 1 := by
    apply cnt_one_of_post hs
    · rw [hpend]; rfl
    · rw [hpend]; simp
  have herase : s.pending.erase PendingOp.finish = [] := by rw [hpend]; rfl
  simp only [applyEvent] at h
  rw [herase] at h
  rw [RpcHolder.FinishSucceeded_eq c
    (show ({ s with pending := ([] : List PendingOp) } : Sys).holderAlive = true from hh)] at h
  injection h with h
  subst h
  constructor
  · show ([] : List PendingOp).length ≤ 1
    decide
  · show callCount (s.trace ++
      (RpcHolder.finishLog s.debug c).map (fun a => (a, false))) ≤ 1
    rw [callCount_append, callCount_finishLog_map, hcnt1]
  · show s.client.callback = true ↔ callCount (s.trace ++
      (RpcHolder.finishLog s.debug c).map (fun a => (a, false))) = 0
    rw [callCount_append, callCount_finishLog_map]
    simpa using hs.gate
  · intro hx
    have hx' : ([] : List PendingOp).any isPre = true := hx
    simp at hx'
  · intro h'
    have h'' : s.started = false := h'
    have hx := (hs.notStarted h'').1
    rw [hpend] at hx
    simp at hx
  · intro _
    right
    show callCount (s.trace ++
      (RpcHolder.finishLog s.debug c).map (fun a => (a, false))) = 1
    rw [callCount_append, callCount_finishLog_map, hcnt1]
  · intro hx
    have hx' : PendingOp.writeResult ∈ ([] : List PendingOp) := hx
    simp at hx'
  · intro hx
    have hx' : PendingOp.finish ∈ ([] : List PendingOp) := hx
    simp at hx'
  · intro h'
    have h'' : s.client.rpc = true := h'
    rw [hrpcf] at h''
    exact absurd h'' (by decide)
  · show countA (Action.issueWrite WriteKind.result) (s.trace ++
      (RpcHolder.finishLog s.debug c).map (fun a => (a, false))) ≤ 1
    rw [countA_append, countA_finishLog_map _ (by decide) (by decide)]
    have h1 := hs.wOnce
    omega
  · intro _
    exact hrpcf
  · show countA Action.issueFinish (s.trace ++
      (RpcHolder.finishLog s.debug c).map (fun a => (a, false))) ≤ 1
    rw [countA_append, countA_finishLog_map _ (by decide) (by decide)]
    have h1 := hs.fOnce
    omega
  · intro _
    refine ⟨hrpcf, ?_, ?_⟩
    · show PendingOp.writeResult ∉ ([] : List PendingOp)
      decide
    · show ([] : List PendingOp).any isPre = false
      decide
  · intro _
    exact hrpcf
  · intro p hp'
    have hp'' : p ∈ s.trace ++
      (RpcHolder.finishLog s.debug c).map (fun a => (a, false)) := hp'
    rcases List.mem_append.mp hp'' with h1 | h2
    · exact hs.lockTags p h1
    · simp only [List.mem_map] at h2
      obtain ⟨x, hx, rfl⟩ := h2
      rcases finishLog_mem s.debug c x hx with rfl | rfl
      · exact ⟨by decide, by decide⟩
      · exact ⟨by decide, by decide⟩

theorem inv_finFail {s t : Sys} (hs : Inv s)
    (he : enabled Event.finFail s = true)
    (h : applyEvent Event.finFail s = some t) : Inv t := by
  have hmem : PendingOp.finish ∈ s.pending := by simpa [enabled] using he
  have hpend := mem_of_len_le_one hmem hs.pendLe
  obtain ⟨hh, hrpcf⟩ := hs.finInv hmem
  have hcnt1 : callCount s.trace = 1 := by
    apply cnt_one_of_post hs
    · rw [hpend]; rfl
    · rw [hpend]; simp
  have herase : s.pending.erase PendingOp.finish = [] := by rw [hpend]; rfl
  simp only [applyEvent] at h
  rw [herase] at h
  rw [RpcHolder.FinishFailed_eq
    (show ({ s with pending := ([] : List PendingOp) } : Sys).holderAlive = true from hh)] at h
  injection h with h
  subst h
  constructor
  · show ([] : List PendingOp).length ≤ 1
    decide
  · show callCount (s.trace ++ [(Action.logWarn, false)]) ≤ 1
    rw [callCount_append, hcnt1]
    decide
  · show s.client.callback = true ↔
      callCount (s.trace ++ [(Action.logWarn, false)]) = 0
    rw [callCount_append, (show callCount [(Action.logWarn, false)] = 0 by decide)]
    simpa using hs.gate
  · intro hx
    have hx' : ([] : List PendingOp).any isPre = true := hx
    simp at hx'
  · intro h'
    have h'' : s.started = false := h'
    have hx := (hs.notStarted h'').1
    rw [hpend] at hx
    simp at hx
  · intro _
    right
    show callCount (s.trace ++ [(Action.logWarn, false)]) = 1
    rw [callCount_append, hcnt1]
    decide
  · intro hx
    have hx' : PendingOp.writeResult ∈ ([] : List PendingOp) := hx
    simp at hx'
  · intro hx
    have hx' : PendingOp.finish ∈ ([] : List PendingOp) := hx
    simp at hx'
  · intro h'
    have h'' : s.client.rpc = true := h'
    rw [hrpcf] at h''
    exact absurd h'' (by decide)
  · show countA (Action.issueWrite WriteKind.result)
      (s.trace ++ [(Action.logWarn, false)]) ≤ 1
    rw [countA_append,
      (show countA (Action.issueWrite WriteKind.result) [(Action.logWarn, false)] = 0
        by decide)]
    have h1 := hs.wOnce
    omega
  · intro _
    exact hrpcf
  · show countA Action.issueFinish (s.trace ++ [(Action.logWarn, false)]) ≤ 1
    rw [countA_append,
      (show countA Action.issueFinish [(Action.logWarn, false)] = 0 by decide)]
    have h1 := hs.fOnce
    omega
  · intro _
    refine ⟨hrpcf, ?_, ?_⟩
    · show PendingOp.writeResult ∉ ([] : List PendingOp)
      decide
    · show ([] : List PendingOp).any isPre = false
      decide
  · intro _
    exact hrpcf
  · intro p hp'
    have hp'' : p ∈ s.trace ++ [(Action.logWarn, false)] := hp'
    rcases List.mem_append.mp hp'' with h1 | h2
    · exact hs.lockTags p h1
    · simp only [List.mem_cons, List.not_mem_nil, or_false] at h2
      rcases h2 with rfl
      exact ⟨by decide, by decide⟩

/-- Every step of the transition system preserves the invariant. -/
theorem inv_step {s t : Sys} (hs : Inv s) (h : StepR s t) : Inv t := by
  obtain ⟨e, he, ha⟩ := h
  cases e with
  | start => exact inv_start hs he ha
  | sendResult => exact inv_sendResult hs he ha
  | openOk => exact inv_openOk hs he ha
  | openFail => exact inv_openFail hs he ha
  | writeReqOk => exact inv_writeReqOk hs he ha
  | writeReqFail => exact inv_writeReqFail hs he ha
  | readOk d => exact inv_readOk hs he ha
  | readFail => exact inv_readFail hs he ha
  | writeResOk => exact inv_writeResOk hs he ha
  | writeResFail => exact inv_writeResFail hs he ha
  | finOk c => exact inv_finOk hs he ha
  | finFail => exact inv_finFail hs he ha

/-- Every reachable state satisfies the invariant. -/
theorem reachable_inv {s : Sys} (h : Reachable s) : Inv s := by
  induction h with
  | init d => exact inv_init d
  | step _ hst ih => exact inv_step ih hst

/-- No enabled event crashes: every dereference in the handlers (`rpc_->`,
`cb->`, the detached holder) is guarded by the invariant. -/
theorem no_crash {s : Sys} (hs : Inv s) (e : Event) (he : enabled e s = true) :
    (applyEvent e s).isSome = true := by
  cases e with
  | start =>
    have hns : s.started = false := by simpa [enabled] using he
    have hrpc := (hs.notStarted hns).2.2.1
    simp [applyEvent, Start, hrpc]
  | sendResult =>
    rcases Bool.eq_false_or_eq_true s.client.rpc with hb | hb
    · simp [applyEvent, SendResultToServer, hb]
    · simp [applyEvent, SendResultToServer, hb]
  | openOk =>
    have hmem : PendingOp.openOp ∈ s.pending := by simpa [enabled] using he
    have hpre : s.pending.any isPre = true := by
      rw [List.any_eq_true]
      exact ⟨_, hmem, rfl⟩
    have hrpc := (hs.preInv hpre).1
    simp [applyEvent, BootStrapFinished, hrpc]
  | openFail =>
    have hmem : PendingOp.openOp ∈ s.pending := by simpa [enabled] using he
    have hpre : s.pending.any isPre = true := by
      rw [List.any_eq_true]
      exact ⟨_, hmem, rfl⟩
    have hrpc := (hs.preInv hpre).1
    have hcb : s.client.callback = true := hs.gate.mpr (hs.preInv hpre).2.2
    simp [applyEvent, StartUpFailed, hrpc, hcb]
  | writeReqOk =>
    have hmem : PendingOp.writeReq ∈ s.pending := by simpa [enabled] using he
    have hpre : s.pending.any isPre = true := by
      rw [List.any_eq_true]
      exact ⟨_, hmem, rfl⟩
    have hrpc := (hs.preInv hpre).1
    simp [applyEvent, WriteServerRequestComplete, hrpc]
  | writeReqFail =>
    have hmem : PendingOp.writeReq ∈ s.pending := by simpa [enabled] using he
    have hpre : s.pending.any isPre = true := by
      rw [List.any_eq_true]
      exact ⟨_, hmem, rfl⟩
    have hrpc := (hs.preInv hpre).1
    have hcb : s.client.callback = true := hs.gate.mpr (hs.preInv hpre).2.2
    simp [applyEvent, StartUpFailed, hrpc, hcb]
  | readOk d =>
    have hmem : PendingOp.readDecision ∈ s.pending := by simpa [enabled] using he
    have hpre : s.pending.any isPre = true := by
      rw [List.any_eq_true]
      exact ⟨_, hmem, rfl⟩
    have hcb : s.client.callback = true := hs.gate.mpr (hs.preInv hpre).2.2
    cases d <;> simp [applyEvent, NotifyClientOfServerDecision, hcb]
  | readFail =>
    have hmem : PendingOp.readDecision ∈ s.pending := by simpa [enabled] using he
    have hpre : s.pending.any isPre = true := by
      rw [List.any_eq_true]
      exact ⟨_, hmem, rfl⟩
    have hrpc := (hs.preInv hpre).1
    have hcb : s.client.callback = true := hs.gate.mpr (hs.preInv hpre).2.2
    simp [applyEvent, StartUpFailed, hrpc, hcb]
  | writeResOk =>
    have hmem : PendingOp.writeResult ∈ s.pending := by simpa [enabled] using he
    have hh := (hs.wresInv hmem).1
    simp [applyEvent, RpcHolder.Finish, hh]
  | writeResFail =>
    have hmem : PendingOp.writeResult ∈ s.pending := by simpa [enabled] using he
    have hh := (hs.wresInv hmem).1
    simp [applyEvent, RpcHolder.Error, hh]
  | finOk c =>
    have hmem : PendingOp.finish ∈ s.pending := by simpa [enabled] using he
    have hh := (hs.finInv hmem).1
    simp [applyEvent, RpcHolder.FinishSucceeded, hh]
  | finFail =>
    have hmem : PendingOp.finish ∈ s.pending := by simpa [enabled] using he
    have hh := (hs.finInv hmem).1
    simp [applyEvent, RpcHolder.FinishFailed, hh]

/-- Once `CallCancel` has fired, no later step issues a decision read. -/
theorem no_read_after_cancel {s t : Sys} (hs : Inv s)
    (hc : 0 < countA Action.callCancel s.trace) (h : StepR s t) :
    countA Action.issueRead t.trace = countA Action.issueRead s.trace := by
  obtain ⟨e, he, ha⟩ := h
  have hnpre : s.pending.any isPre = false := by
    rcases Bool.eq_false_or_eq_true (s.pending.any isPre) with hb | hb
    · have hz := (hs.preInv hb).2.2
      unfold callCount at hz
      omega
    · exact hb
  cases e with
  | start =>
    have hns : s.started = false := by simpa [enabled] using he
    have htr := (hs.notStarted hns).2.1
    rw [htr] at hc
    exact absurd hc (by decide)
  | sendResult =>
    rcases Bool.eq_false_or_eq_true s.client.rpc with hb | hb
    · exact absurd hb (by rw [hs.cancelRpc hc]; decide)
    · simp only [applyEvent] at ha
      rw [SendResultToServer_noop hb] at ha
      injection ha with ha
      subst ha
      rfl
  | openOk =>
    have hmem : PendingOp.openOp ∈ s.pending := by simpa [enabled] using he
    have hx : s.pending.any isPre = true := by
      rw [List.any_eq_true]; exact ⟨_, hmem, rfl⟩
    rw [hnpre] at hx
    exact absurd hx (by decide)
  | openFail =>
    have hmem : PendingOp.openOp ∈ s.pending := by simpa [enabled] using he
    have hx : s.pending.any isPre = true := by
      rw [List.any_eq_true]; exact ⟨_, hmem, rfl⟩
    rw [hnpre] at hx
    exact absurd hx (by decide)
  | writeReqOk =>
    have hmem : PendingOp.writeReq ∈ s.pending := by simpa [enabled] using he
    have hx : s.pending.any isPre = true := by
      rw [List.any_eq_true]; exact ⟨_, hmem, rfl⟩
    rw [hnpre] at hx
    exact absurd hx (by decide)
  | writeReqFail =>
    have hmem : PendingOp.writeReq ∈ s.pending := by simpa [enabled] using he
    have hx : s.pending.any isPre = true := by
      rw [List.any_eq_true]; exact ⟨_, hmem, rfl⟩
    rw [hnpre] at hx
    exact absurd hx (by decide)
  | readOk d =>
    have hmem : PendingOp.readDecision ∈ s.pending := by simpa [enabled] using he
    have hx : s.pending.any isPre = true := by
      rw [List.any_eq_true]; exact ⟨_, hmem, rfl⟩
    rw [hnpre] at hx
    exact absurd hx (by decide)
  | readFail =>
    have hmem : PendingOp.readDecision ∈ s.pending := by simpa [enabled] using he
    have hx : s.pending.any isPre = true := by
      rw [List.any_eq_true]; exact ⟨_, hmem, rfl⟩
    rw [hnpre] at hx
    exact absurd hx (by decide)
  | writeResOk =>
    have hmem : PendingOp.writeResult ∈ s.pending := by simpa [enabled] using he
    have hpend := mem_of_len_le_one hmem hs.pendLe
    have hh := (hs.wresInv hmem).1
    have herase : s.pending.erase PendingOp.writeResult = [] := by rw [hpend]; rfl
    simp only [applyEvent] at ha
    rw [herase] at ha
    rw [RpcHolder.Finish_eq
      (show ({ s with pending := ([] : List PendingOp) } : Sys).holderAlive = true
        from hh)] at ha
    injection ha with ha
    subst ha
    show countA Action.issueRead (s.trace ++ [(Action.issueFinish, false)])
      = countA Action.issueRead s.trace
    rw [countA_append, (show countA Action.issueRead [(Action.issueFinish, false)] = 0
      by decide)]
    omega
  | writeResFail =>
    have hmem : PendingOp.writeResult ∈ s.pending := by simpa [enabled] using he
    have hpend := mem_of_len_le_one hmem hs.pendLe
    have hh := (hs.wresInv hmem).1
    have herase : s.pending.erase PendingOp.writeResult = [] := by rw [hpend]; rfl
    simp only [applyEvent] at ha
    rw [herase] at ha
    rw [RpcHolder.Error_eq
      (show ({ s with pending := ([] : List PendingOp) } : Sys).holderAlive = true
        from hh)] at ha
    injection ha with ha
    subst ha
    show countA Action.issueRead
        (s.trace ++ [(Action.logWarn, false), (Action.issueFinish, false)])
      = countA Action.issueRead s.trace
    rw [countA_append,
      (show countA Action.issueRead [(Action.logWarn, false), (Action.issueFinish, false)] = 0
        by decide)]
    omega
  | finOk c =>
    have hmem : PendingOp.finish ∈ s.pending := by simpa [enabled] using he
    have hpend := mem_of_len_le_one hmem hs.pendLe
    have hh := (hs.finInv hmem).1
    have herase : s.pending.erase PendingOp.finish = [] := by rw [hpend]; rfl
    simp only [applyEvent] at ha
    rw [herase] at ha
    rw [RpcHolder.FinishSucceeded_eq c
      (show ({ s with pending := ([] : List PendingOp) } : Sys).holderAlive = true
        from hh)] at ha
    injection ha with ha
    subst ha
    show countA Action.issueRead
        (s.trace ++ (RpcHolder.finishLog s.debug c).map (fun a => (a, false)))
      = countA Action.issueRead s.trace
    rw [countA_append, countA_finishLog_map _ (by decide) (by decide)]
    omega
  | finFail =>
    have hmem : PendingOp.finish ∈ s.pending := by simpa [enabled] using he
    have hpend := mem_of_len_le_one hmem hs.pendLe
    have hh := (hs.finInv hmem).1
    have herase : s.pending.erase PendingOp.finish = [] := by rw [hpend]; rfl
    simp only [applyEvent] at ha
    rw [herase] at ha
    rw [RpcHolder.FinishFailed_eq
      (show ({ s with pending := ([] : List PendingOp) } : Sys).holderAlive = true
        from hh)] at ha
    injection ha with ha
    subst ha
    show countA Action.issueRead (s.trace ++ [(Action.logWarn, false)])
      = countA Action.issueRead s.trace
    rw [countA_append, (show countA Action.issueRead [(Action.logWarn, false)] = 0
      by decide)]
    omega

/-- Once `CallCancel` has fired, it stays in the trace after any step. -/
theorem cancel_stable {s t : Sys} (hs : Inv s)
    (hc : 0 < countA Action.callCancel s.trace)
    (h : StepR s t) : 0 < countA Action.callCancel t.trace := by
  obtain ⟨e, he, ha⟩ := h
  have hnpre : s.pending.any isPre = false := by
    rcases Bool.eq_false_or_eq_true (s.pending.any isPre) with hb | hb
    · have hz := (hs.preInv hb).2.2
      unfold callCount at hz
      omega
    · exact hb
  cases e with
  | start =>
    have hns : s.started = false := by simpa [enabled] using he
    have htr := (hs.notStarted hns).2.1
    rw [htr] at hc
    exact absurd hc (by decide)
  | sendResult =>
    rcases Bool.eq_false_or_eq_true s.client.rpc with hb | hb
    · exact absurd hb (by rw [hs.cancelRpc hc]; decide)
    · simp only [applyEvent] at ha
      rw [SendResultToServer_noop hb] at ha
      injection ha with ha
      subst ha
      exact hc
  | openOk =>
    have hmem : PendingOp.openOp ∈ s.pending := by simpa [enabled] using he
    have hx : s.pending.any isPre = true := by
      rw [List.any_eq_true]; exact ⟨_, hmem, rfl⟩
    rw [hnpre] at hx
    exact absurd hx (by decide)
  | openFail =>
    have hmem : PendingOp.openOp ∈ s.pending := by simpa [enabled] using he
    have hx : s.pending.any isPre = true := by
      rw [List.any_eq_true]; exact ⟨_, hmem, rfl⟩
    rw [hnpre] at hx
    exact absurd hx (by decide)
  | writeReqOk =>
    have hmem : PendingOp.writeReq ∈ s.pending := by simpa [enabled] using he
    have hx : s.pending.any isPre = true := by
      rw [List.any_eq_true]; exact ⟨_, hmem, rfl⟩
    rw [hnpre] at hx
    exact absurd hx (by decide)
  | writeReqFail =>
    have hmem : PendingOp.writeReq ∈ s.pending := by simpa [enabled] using he
    have hx : s.pending.any isPre = true := by
      rw [List.any_eq_true]; exact ⟨_, hmem, rfl⟩
    rw [hnpre] at hx
    exact absurd hx (by decide)
  | readOk d =>
    have hmem : PendingOp.readDecision ∈ s.pending := by simpa [enabled] using he
    have hx : s.pending.any isPre = true := by
      rw [List.any_eq_true]; exact ⟨_, hmem, rfl⟩
    rw [hnpre] at hx
    exact absurd hx (by decide)
  | readFail =>
    have hmem : PendingOp.readDecision ∈ s.pending := by simpa [enabled] using he
    have hx : s.pending.any isPre = true := by
      rw [List.any_eq_true]; exact ⟨_, hmem, rfl⟩
    rw [hnpre] at hx
    exact absurd hx (by decide)
  | writeResOk =>
    have hmem : PendingOp.writeResult ∈ s.pending := by simpa [enabled] using he
    have hpend := mem_of_len_le_one hmem hs.pendLe
    have hh := (hs.wresInv hmem).1
    have herase : s.pending.erase PendingOp.writeResult = [] := by rw [hpend]; rfl
    simp only [applyEvent] at ha
    rw [herase] at ha
    rw [RpcHolder.Finish_eq
      (show ({ s with pending := ([] : List PendingOp) } : Sys).holderAlive = true
        from hh)] at ha
    injection ha with ha
    subst ha
    show 0 < countA Action.callCancel (s.trace ++ [(Action.issueFinish, false)])
    rw [countA_append]
    omega
  | writeResFail =>
    have hmem : PendingOp.writeResult ∈ s.pending := by simpa [enabled] using he
    have hpend := mem_of_len_le_one hmem hs.pendLe
    have hh := (hs.wresInv hmem).1
    have herase : s.pending.erase PendingOp.writeResult = [] := by rw [hpend]; rfl
    simp only [applyEvent] at ha
    rw [herase] at ha
    rw [RpcHolder.Error_eq
      (show ({ s with pending := ([] : List PendingOp) } : Sys).holderAlive = true
        from hh)] at ha
    injection ha with ha
    subst ha
    show 0 < countA Action.callCancel
      (s.trace ++ [(Action.logWarn, false), (Action.issueFinish, false)])
    rw [countA_append]
    omega
  | finOk c =>
    have hmem : PendingOp.finish ∈ s.pending := by simpa [enabled] using he
    have hpend := mem_of_len_le_one hmem hs.pendLe
    have hh := (hs.finInv hmem).1
    have herase : s.pending.erase PendingOp.finish = [] := by rw [hpend]; rfl
    simp only [applyEvent] at ha
    rw [herase] at ha
    rw [RpcHolder.FinishSucceeded_eq c
      (show ({ s with pending := ([] : List PendingOp) } : Sys).holderAlive = true
        from hh)] at ha
    injection ha with ha
    subst ha
    show 0 < countA Action.callCancel
      (s.trace ++ (RpcHolder.finishLog s.debug c).map (fun a => (a, false)))
    rw [countA_append]
    omega
  | finFail =>
    have hmem : PendingOp.finish ∈ s.pending := by simpa [enabled] using he
    have hpend := mem_of_len_le_one hmem hs.pendLe
    have hh := (hs.finInv hmem).1
    have herase : s.pending.erase PendingOp.finish = [] := by rw [hpend]; rfl
    simp only [applyEvent] at ha
    rw [herase] at ha
    rw [RpcHolder.FinishFailed_eq
      (show ({ s with pending := ([] : List PendingOp) } : Sys).holderAlive = true
        from hh)] at ha
    injection ha with ha
    subst ha
    show 0 < countA Action.callCancel (s.trace ++ [(Action.logWarn, false)])
    rw [countA_append]
    omega

/-! ### Concrete runs

The states below are the intermediate states of the two interesting
executions: the full granted run (start, open ok, request write ok,
decision read grants, `SendResultToServer`, result write ok, finish ok)
and the denied/failed runs branching off it. -/

/-- After `Start`. -/
def sStarted : Sys :=
  { debug := false
    client := { callback := true, rpc := true, resp := false }
    holderAlive := true
    pending := [PendingOp.openOp]
    started := true
    trace := [(Action.startRpcHook, true), (Action.issueOpen, true)] }

/-- After the open completed: the request was populated and written. -/
def sOpened : Sys :=
  { debug := false
    client := { callback := true, rpc := true, resp := false }
    holderAlive := true
    pending := [PendingOp.writeReq]
    started := true
    trace := [(Action.startRpcHook, true), (Action.issueOpen, true),
              (Action.populateRequest, true),
              (Action.issueWrite WriteKind.request, true)] }

/-- After the request write completed: the decision read is outstanding. -/
def sAwait : Sys :=
  { debug := false
    client := { callback := true, rpc := true, resp := false }
    holderAlive := true
    pending := [PendingOp.readDecision]
    started := true
    trace := [(Action.startRpcHook, true), (Action.issueOpen, true),
              (Action.populateRequest, true),
              (Action.issueWrite WriteKind.request, true),
              (Action.issueRead, true)] }

/-- After the decision read returned deny. -/
def sDenied : Sys :=
  { debug := false
    client := { callback := false, rpc := false, resp := false }
    holderAlive := false
    pending := []
    started := true
    trace := [(Action.startRpcHook, true), (Action.issueOpen, true),
              (Action.populateRequest, true),
              (Action.issueWrite WriteKind.request, true),
              (Action.issueRead, true),
              (Action.destroyRpc, true), (Action.callCancel, false)] }

/-- After the decision read returned proceed. -/
def sGranted : Sys :=
  { debug := false
    client := { callback := false, rpc := true, resp := false }
    holderAlive := true
    pending := []
    started := true
    trace := [(Action.startRpcHook, true), (Action.issueOpen, true),
              (Action.populateRequest, true),
              (Action.issueWrite WriteKind.request, true),
              (Action.issueRead, true),
              (Action.callRun, false)] }

/-- After `SendResultToServer` on the granted state. -/
def sSent : Sys :=
  { debug := false
    client := { callback := false, rpc := false, resp := false }
    holderAlive := true
    pending := [PendingOp.writeResult]
    started := true
    trace := [(Action.startRpcHook, true), (Action.issueOpen, true),
              (Action.populateRequest, true),
              (Action.issueWrite WriteKind.request, true),
              (Action.issueRead, true),
              (Action.callRun, false),
              (Action.detachRpc, true),
              (Action.issueWrite WriteKind.result, true)] }

/-- After the result write completed: the close handshake is outstanding. -/
def sFinishing : Sys :=
  { debug := false
    client := { callback := false, rpc := false, resp := false }
    holderAlive := true
    pending := [PendingOp.finish]
    started := true
    trace := [(Action.startRpcHook, true), (Action.issueOpen, true),
              (Action.populateRequest, true),
              (Action.issueWrite WriteKind.request, true),
              (Action.issueRead, true),
              (Action.callRun, false),
              (Action.detachRpc, true),
              (Action.issueWrite WriteKind.result, true),
              (Action.issueFinish, false)] }

/-- After the close handshake completed with status OK (no log entry). -/
def sDone : Sys :=
  { debug := false
    client := { callback := false, rpc := false, resp := false }
    holderAlive := false
    pending := []
    started := true
    trace := [(Action.startRpcHook, true), (Action.issueOpen, true),
              (Action.populateRequest, true),
              (Action.issueWrite WriteKind.request, true),
              (Action.issueRead, true),
              (Action.callRun, false),
              (Action.detachRpc, true),
              (Action.issueWrite WriteKind.result, true),
              (Action.issueFinish, false)] }

/-- After the open failed (`StartUpFailed` ran). -/
def sFailed : Sys :=
  { debug := false
    client := { callback := false, rpc := false, resp := false }
    holderAlive := true
    pending := [PendingOp.finish]
    started := true
    trace := [(Action.startRpcHook, true), (Action.issueOpen, true),
              (Action.logWarn, true), (Action.detachRpc, true),
              (Action.issueFinish, true), (Action.callCancel, false)] }

/-- After the failure-path close handshake completed with status OK. -/
def sFailedDone : Sys :=
  { debug := false
    client := { callback := false, rpc := false, resp := false }
    holderAlive := false
    pending := []
    started := true
    trace := [(Action.startRpcHook, true), (Action.issueOpen, true),
              (Action.logWarn, true), (Action.detachRpc, true),
              (Action.issueFinish, true), (Action.callCancel, false)] }

theorem reach_sStarted : Reachable sStarted :=
  Reachable.step (Reachable.init false) ⟨Event.start, by decide, by decide⟩

theorem reach_sOpened : Reachable sOpened :=
  Reachable.step reach_sStarted ⟨Event.openOk, by decide, by decide⟩

theorem reach_sAwait : Reachable sAwait :=
  Reachable.step reach_sOpened ⟨Event.writeReqOk, by decide, by decide⟩

theorem reach_sDenied : Reachable sDenied :=
  Reachable.step reach_sAwait ⟨Event.readOk false, by decide, by decide⟩

theorem reach_sGranted : Reachable sGranted :=
  Reachable.step reach_sAwait ⟨Event.readOk true, by decide, by decide⟩

theorem reach_sSent : Reachable sSent :=
  Reachable.step reach_sGranted ⟨Event.sendResult, by decide, by decide⟩

theorem reach_sFinishing : Reachable sFinishing :=
  Reachable.step reach_sSent ⟨Event.writeResOk, by decide, by decide⟩

theorem reach_sDone : Reachable sDone :=
  Reachable.step reach_sFinishing ⟨Event.finOk StatusCode.ok, by decide, by decide⟩

theorem reach_sFailed : Reachable sFailed :=
  Reachable.step reach_sStarted ⟨Event.openFail, by decide, by decide⟩

theorem reach_sFailedDone : Reachable sFailedDone :=
  Reachable.step reach_sFailed ⟨Event.finOk StatusCode.ok, by decide, by decide⟩

/-! ### Claims -/

/-- Iterated calls to `SendResultToServer` (the caller may invoke
`reportCompletion` any number of times). -/
def iterateSend : Nat → Sys → Option Sys
  | 0, s => some s
  | n + 1, s => (SendResultToServer s).bind (iterateSend n)

/-- C1: the decision callback (`CallRun`/`CallCancel`) is invoked at most
once in every reachable state; nulling `callback_` is the gate (the
reference is present exactly while no invocation has happened); and in
every quiescent started state (no operation outstanding) it has been
invoked exactly once. -/
theorem claim1_decision_callback_exactly_once {s : Sys} (h : Reachable s) :
    callCount s.trace ≤ 1 ∧
    (s.client.callback = true ↔ callCount s.trace = 0) ∧
    (s.started = true → s.pending = [] → callCount s.trace = 1) := by
  have hs := reachable_inv h
  refine ⟨hs.cntLe, hs.gate, ?_⟩
  intro hstart hpend
  rcases hs.quiesce hstart with hx | hx
  · rw [hpend] at hx
    exact absurd hx (by decide)
  · exact hx

theorem claim1_witness :
    callCount sDone.trace ≤ 1 ∧
    (sDone.client.callback = true ↔ callCount sDone.trace = 0) ∧
    (sDone.started = true → sDone.pending = [] → callCount sDone.trace = 1) :=
  claim1_decision_callback_exactly_once reach_sDone

/-- C2, counterexample: the claim says the deny path disposes of the
Session Handle via the shutdown handshake (`requestCleanup`, i.e. a
`Finish` on the channel).  In the code the deny path merely resets the
owning pointer (`rpc_.reset()`) and never issues `Finish`: from the
reachable pre-decision state, completing the read with deny yields a state
whose trace contains no `issueFinish`. -/
theorem claim2_counterexample :
    ¬ (∀ s t : Sys, Reachable s → applyEvent (Event.readOk false) s = some t →
        0 < countA Action.issueFinish t.trace) := by
  intro hall
  have hx := hall sAwait sDenied reach_sAwait (by decide)
  exact absurd hx (by decide)

/-- C2, amended: when the decision read returns deny, the handler destroys
the Session Handle under the lock (`rpc_.reset()`, with no `Finish`
shutdown handshake issued on it), and only then invokes the callback's
`CallCancel` outside the lock; no new channel operation is issued. -/
theorem claim2_deny_destroys_then_cancels {s : Sys}
    (hcb : s.client.callback = true) (hrpc : s.client.rpc = true)
    (hresp : s.client.resp = false) :
    NotifyClientOfServerDecision s = some { s with
      client := { callback := false, rpc := false, resp := false }
      holderAlive := false
      trace := s.trace ++ [(Action.destroyRpc, true), (Action.callCancel, false)] } := by
  simp [NotifyClientOfServerDecision, hcb, hresp, hrpc]

theorem claim2_witness :
    NotifyClientOfServerDecision { sAwait with pending := [] } = some sDenied := by
  rw [claim2_deny_destroys_then_cancels rfl rfl rfl]
  decide

/-- C3, counterexample: the claim says the lock is released before every
call into user-supplied code, including the subclass hooks.  In the code
`PopulateServerRequest` runs while the lock is held: the reachable state
after the open completed contains the trace entry
`(populateRequest, lock held)`. -/
theorem claim3_counterexample :
    ¬ (∀ s : Sys, Reachable s → ∀ p ∈ s.trace,
        (p.1 = Action.callRun ∨ p.1 = Action.callCancel ∨
         p.1 = Action.populateRequest ∨ p.1 = Action.startRpcHook) →
        p.2 = false) := by
  intro hall
  have hx := hall sOpened reach_sOpened (Action.populateRequest, true)
    (by decide) (by decide)
  exact absurd hx (by decide)

/-- C3, amended: on every execution path the lock is released before the
decision callback (`CallRun`/`CallCancel`) is invoked, but the subclass
hooks `PopulateServerRequest` and `StartRpc` are invoked while the lock is
held. -/
theorem claim3_lock_discipline {s : Sys} (h : Reachable s) :
    (∀ p ∈ s.trace, (p.1 = Action.callRun ∨ p.1 = Action.callCancel) →
      p.2 = false) ∧
    (∀ p ∈ s.trace, (p.1 = Action.populateRequest ∨ p.1 = Action.startRpcHook) →
      p.2 = true) := by
  have hs := reachable_inv h
  constructor
  · intro p hp hcase
    exact (hs.lockTags p hp).1 hcase
  · intro p hp hcase
    exact (hs.lockTags p hp).2 hcase

theorem claim3_witness :
    (∀ p ∈ sGranted.trace, (p.1 = Action.callRun ∨ p.1 = Action.callCancel) →
      p.2 = false) ∧
    (∀ p ∈ sGranted.trace,
      (p.1 = Action.populateRequest ∨ p.1 = Action.startRpcHook) →
      p.2 = true) :=
  claim3_lock_discipline reach_sGranted

/-- C4: once the session handle is gone (`rpc_ == nullptr`), any number of
`SendResultToServer` calls is a silent no-op (state, trace and outstanding
operations unchanged — in particular zero channel writes); and the handle
is gone in every reachable state in which `CallCancel` fired (deny or
error) or a result write already happened (the method was already called). -/
theorem claim4_send_noop_after_disposal :
    (∀ s : Sys, s.client.rpc = false → ∀ n : Nat, iterateSend n s = some s) ∧
    (∀ s : Sys, Reachable s →
      (0 < countA Action.callCancel s.trace ∨
       0 < countA (Action.issueWrite WriteKind.result) s.trace) →
      s.client.rpc = false) := by
  constructor
  · intro s hrpc n
    induction n with
    | zero => rfl
    | succ n ih =>
      show (SendResultToServer s).bind (iterateSend n) = some s
      rw [SendResultToServer_noop hrpc]
      simpa using ih
  · intro s h hc
    have hs := reachable_inv h
    rcases hc with hc | hc
    · exact hs.cancelRpc hc
    · exact hs.wGate hc

theorem claim4_witness :
    iterateSend 3 sDenied = some sDenied ∧ sDenied.client.rpc = false :=
  ⟨claim4_send_noop_after_disposal.1 sDenied rfl 3,
   claim4_send_noop_after_disposal.2 sDenied reach_sDenied (Or.inl (by decide))⟩

/-- C5: in every reachable state at most one result write and at most one
close handshake have been issued; and on the concrete granted run, one
`SendResultToServer` produces exactly one result write, whose completion
produces exactly one `Finish`, in that order, and any second
`SendResultToServer` is a no-op. -/
theorem claim5_result_write_then_finish_once :
    (∀ s : Sys, Reachable s →
      countA (Action.issueWrite WriteKind.result) s.trace ≤ 1 ∧
      countA Action.issueFinish s.trace ≤ 1) ∧
    SendResultToServer sGranted = some sSent ∧
    applyEvent Event.writeResOk sSent = some sFinishing ∧
    sSent.trace = sGranted.trace ++ [(Action.detachRpc, true),
      (Action.issueWrite WriteKind.result, true)] ∧
    sFinishing.trace = sSent.trace ++ [(Action.issueFinish, false)] ∧
    countA (Action.issueWrite WriteKind.result) sFinishing.trace = 1 ∧
    countA Action.issueFinish sFinishing.trace = 1 ∧
    SendResultToServer sSent = some sSent ∧
    SendResultToServer sFinishing = some sFinishing := by
  refine ⟨?_, by decide, by decide, by decide, by decide, by decide, by decide,
    by decide, by decide⟩
  intro s h
  have hs := reachable_inv h
  exact ⟨hs.wOnce, hs.fOnce⟩

theorem claim5_witness :
    countA (Action.issueWrite WriteKind.result) sDone.trace ≤ 1 ∧
    countA Action.issueFinish sDone.trace ≤ 1 :=
  claim5_result_write_then_finish_once.1 sDone reach_sDone

/-- C6: the close-handshake completion (`FinishSucceeded`) classifies the
final status: OK and CANCELLED produce no log entry; ABORTED produces one
fatal-severity entry in debug builds and one warning in release builds;
every other status produces exactly one warning; and on a reachable state
with the handshake outstanding, completing it appends exactly that
classification to the trace. -/
theorem claim6_finish_status_classification :
    (∀ (d : Bool) (c : StatusCode), (c = StatusCode.ok ∨ c = StatusCode.cancelled) →
      RpcHolder.finishLog d c = []) ∧
    RpcHolder.finishLog true StatusCode.aborted = [Action.logFatal] ∧
    RpcHolder.finishLog false StatusCode.aborted = [Action.logWarn] ∧
    (∀ (d : Bool) (c : StatusCode),
      c ≠ StatusCode.ok → c ≠ StatusCode.cancelled → c ≠ StatusCode.aborted →
      RpcHolder.finishLog d c = [Action.logWarn]) ∧
    (∀ (s : Sys) (c : StatusCode), Reachable s → PendingOp.finish ∈ s.pending →
      ∃ t, applyEvent (Event.finOk c) s = some t ∧
        t.trace = s.trace ++ (RpcHolder.finishLog s.debug c).map (fun a => (a, false))) := by
  refine ⟨by decide, by decide, by decide, by decide, ?_⟩
  intro s c h hmem
  have hs := reachable_inv h
  have hpend := mem_of_len_le_one hmem hs.pendLe
  have hh := (hs.finInv hmem).1
  have herase : s.pending.erase PendingOp.finish = [] := by rw [hpend]; rfl
  simp only [applyEvent]
  rw [herase]
  rw [RpcHolder.FinishSucceeded_eq c
    (show ({ s with pending := ([] : List PendingOp) } : Sys).holderAlive = true
      from hh)]
  exact ⟨_, rfl, rfl⟩

theorem claim6_witness :
    RpcHolder.finishLog true StatusCode.ok = [] ∧
    RpcHolder.finishLog false StatusCode.unavailable = [Action.logWarn] ∧
    (∃ t, applyEvent (Event.finOk StatusCode.aborted) sFinishing = some t ∧
      t.trace = sFinishing.trace ++
        (RpcHolder.finishLog sFinishing.debug StatusCode.aborted).map
          (fun a => (a, false))) :=
  ⟨claim6_finish_status_classification.1 true StatusCode.ok (Or.inl rfl),
   claim6_finish_status_classification.2.2.2.1 false StatusCode.unavailable
     (by decide) (by decide) (by decide),
   claim6_finish_status_classification.2.2.2.2 sFinishing StatusCode.aborted
     reach_sFinishing (by decide)⟩

/-- C7: if open, request write or decision read fails, `StartUpFailed`
logs, detaches the holder (which stays alive), issues the `Finish`
shutdown handshake on it under the lock, and invokes `CallCancel` outside
the lock; and once `CallCancel` has fired, no later step of the system
issues a decision read (and `CallCancel` stays fired). -/
theorem claim7_failure_finishes_and_cancels :
    (∀ s : Sys, s.client.rpc = true → s.client.callback = true →
      StartUpFailed s = some { s with
        client := { callback := false, rpc := false, resp := s.client.resp }
        trace := s.trace ++ [(Action.logWarn, true), (Action.detachRpc, true),
                             (Action.issueFinish, true), (Action.callCancel, false)]
        pending := s.pending ++ [PendingOp.finish] }) ∧
    (∀ s t : Sys, Reachable s → 0 < countA Action.callCancel s.trace →
      StepR s t →
      countA Action.issueRead t.trace = countA Action.issueRead s.trace ∧
      0 < countA Action.callCancel t.trace) := by
  constructor
  · intro s hrpc hcb
    exact StartUpFailed_eq hrpc hcb
  · intro s t h hcancel hst
    exact ⟨no_read_after_cancel (reachable_inv h) hcancel hst,
           cancel_stable (reachable_inv h) hcancel hst⟩

theorem claim7_witness :
    StartUpFailed sAwait = some { sAwait with
      client := { callback := false, rpc := false, resp := sAwait.client.resp }
      trace := sAwait.trace ++ [(Action.logWarn, true), (Action.detachRpc, true),
                                (Action.issueFinish, true), (Action.callCancel, false)]
      pending := sAwait.pending ++ [PendingOp.finish] } ∧
    (countA Action.issueRead sFailedDone.trace
        = countA Action.issueRead sFailed.trace ∧
      0 < countA Action.callCancel sFailedDone.trace) :=
  ⟨claim7_failure_finishes_and_cancels.1 sAwait rfl rfl,
   claim7_failure_finishes_and_cancels.2 sFailed sFailedDone reach_sFailed
     (by decide) ⟨Event.finOk StatusCode.ok, by decide, by decide⟩⟩

/-- C8: at most one asynchronous transport operation is outstanding on the
channel in every reachable state (callers following the documented
contract: `Start` once, `SendResultToServer` only after `CallRun`). -/
theorem claim8_at_most_one_outstanding {s : Sys} (h : Reachable s) :
    s.pending.length ≤ 1 :=
  (reachable_inv h).pendLe

theorem claim8_witness : sSent.pending.length ≤ 1 :=
  claim8_at_most_one_outstanding reach_sSent

/-- C9: constructing with a null callback fails the `CHECK` (aborts);
construction with a non-null callback yields the initial state; and no
enabled event in any reachable state crashes — in particular
`CallRun`/`CallCancel` never dereference a null `callback_`, because the
handlers that consume it always find it non-null. -/
theorem claim9_null_callback_check :
    (∀ d : Bool, mkClient d none = none) ∧
    (∀ d : Bool, mkClient d (some ()) = some (initSys d)) ∧
    (∀ s : Sys, Reachable s → ∀ e : Event, enabled e s = true →
      (applyEvent e s).isSome = true) := by
  refine ⟨fun d => rfl, fun d => rfl, ?_⟩
  intro s h e he
  exact no_crash (reachable_inv h) e he

theorem claim9_witness :
    (applyEvent (Event.readOk true) sAwait).isSome = true :=
  claim9_null_callback_check.2.2 sAwait reach_sAwait (Event.readOk true)
    (by decide)

/-- C10: `SendResultToServer` is gated solely on the presence of the
session handle: whenever `rpc_` is non-null — including the reachable
state in which the decision read is still outstanding and the callback has
not fired — the call detaches the handle and issues the result write; the
code performs no check that a decision has been received. -/
theorem claim10_send_gated_only_on_handle :
    (∀ s : Sys, s.client.rpc = true →
      SendResultToServer s = some { s with
        client := { callback := s.client.callback, rpc := false,
                    resp := s.client.resp }
        trace := s.trace ++ [(Action.detachRpc, true),
                             (Action.issueWrite WriteKind.result, true)]
        pending := s.pending ++ [PendingOp.writeResult] }) ∧
    (Reachable sAwait ∧ sAwait.client.callback = true ∧
      PendingOp.readDecision ∈ sAwait.pending ∧
      SendResultToServer sAwait = some { sAwait with
        client := { callback := true, rpc := false, resp := false }
        trace := sAwait.trace ++ [(Action.detachRpc, true),
                                  (Action.issueWrite WriteKind.result, true)]
        pending := [PendingOp.readDecision, PendingOp.writeResult] }) := by
  refine ⟨fun s hrpc => SendResultToServer_eq hrpc, reach_sAwait, rfl, by decide, ?_⟩
  rw [SendResultToServer_eq rfl]
  decide

theorem claim10_witness :
    SendResultToServer sGranted = some { sGranted with
      client := { callback := sGranted.client.callback, rpc := false,
                  resp := sGranted.client.resp }
      trace := sGranted.trace ++ [(Action.detachRpc, true),
                                  (Action.issueWrite WriteKind.result, true)]
      pending := sGranted.pending ++ [PendingOp.writeResult] } :=
  claim10_send_gated_only_on_handle.1 sGranted rfl

end RequestResultRpc
